import Mathlib

/-!
Verification of the py4dvar 4D-Var assimilation core.

The Python modules under `fourdvar/` are shallowly embedded: numpy float
arrays are modelled as exact rationals (dense 2-D arrays as functions from
grid coordinates, 1-D arrays as lists), Python dicts as association lists in
insertion order, and fallible code (assert statements, undefined names) as
`Except String`.  Each definition carries a comment naming the source
function it embeds; definitions marked `Modelled from the spec:` stand for
code of the repository that is not among the provided source files (only its
callers are) and follow the specification text instead.
-/

/-- A grid coordinate `(row, col)`, exactly as destructured by
`obs_operator` and `calc_forcing` (`(row,col,) = coord`). -/
abbrev Coord : Type := Nat × Nat

/-- The items of one observation's sparse weight dict `{(row,col): weight}`
(`ObservationData.weight_grid` entries).  Python dict keys are unique; where
a theorem needs that fact it is a `Nodup` hypothesis. -/
abbrev WeightMap : Type := List (Coord × ℚ)

/-- Inner loop of `fourdvar/transfunc/obs_operator.py::obs_operator` for one
observation: `for coord, weight in w_dict.items(): obs_val_arr[obs_i] +=
weight * model_output.value[row, col]`. -/
def dict_sum (w_dict : WeightMap) (value : Coord → ℚ) : ℚ :=
  w_dict.foldl (fun acc cw => acc + cw.2 * value cw.1) 0

/-- Embeds `fourdvar/transfunc/obs_operator.py::obs_operator`.  The Python
code fills `obs_val_arr = np.zeros(ObservationData.length)` by enumerating
`ObservationData.weight_grid` (one weight dict per observation, so `length`
is the number of weight maps); entry `obs_i` accumulates
`weight * model_output.value[row, col]` over the items of dict `obs_i`. -/
def obs_operator (weight_grid : List WeightMap) (value : Coord → ℚ) : List ℚ :=
  weight_grid.map (fun w_dict => dict_sum w_dict value)

/-- Inner loop of `fourdvar/transfunc/calc_forcing.py::calc_forcing` for one
observation: `for coord, weight in w_dict.items(): force_arr[row, col] +=
o_val * weight`. -/
def scatter_obs (force_arr : Coord → ℚ) (o_val : ℚ) (w_dict : WeightMap) :
    Coord → ℚ :=
  w_dict.foldl (fun arr cw => Function.update arr cw.1 (arr cw.1 + o_val * cw.2))
    force_arr

/-- Embeds `fourdvar/transfunc/calc_forcing.py::calc_forcing`.  Starts from
`force_arr = np.zeros(model_data.gradient.shape[1:])` (the constant-zero
field) and, for `o_val, w_dict in zip(w_residual.value, w_residual.weight_grid)`,
scatters `o_val * weight` into the coordinates of `w_dict`. -/
def calc_forcing (obs_value : List ℚ) (weight_grid : List WeightMap) :
    Coord → ℚ :=
  (obs_value.zip weight_grid).foldl (fun arr ow => scatter_obs arr ow.1 ow.2)
    (fun _ => 0)

/-- Total weight a weight map assigns to coordinate `c` (the sum over items
whose key is `c`; a dict has each key once, so for genuine dict item lists
this is the value stored at `c`, or `0` when `c` is absent). -/
def key_weight_sum : WeightMap → Coord → ℚ
  | [], _ => 0
  | cw :: rest, c => (if cw.1 = c then cw.2 else 0) + key_weight_sum rest c

/-- A unit impulse field: `1` at cell `c`, `0` everywhere else. -/
def impulse_field (c : Coord) : Coord → ℚ :=
  fun x => if x = c then 1 else 0

/-- A residual vector of length `n` that is `1` at observation `i` and `0`
for every other observation. -/
def unit_vec : Nat → Nat → List ℚ
  | 0, _ => []
  | n + 1, 0 => 1 :: List.replicate n 0
  | n + 1, i + 1 => 0 :: unit_vec n i

lemma foldl_add_eq {α : Type} (f : α → ℚ) :
    ∀ (l : List α) (a : ℚ), l.foldl (fun acc x => acc + f x) a = a + (l.map f).sum
  | [], a => by simp
  | x :: xs, a => by
    rw [List.foldl_cons, foldl_add_eq f xs (a + f x)]
    simp [add_assoc]

lemma dict_sum_eq (w_dict : WeightMap) (value : Coord → ℚ) :
    dict_sum w_dict value = (w_dict.map (fun cw => cw.2 * value cw.1)).sum := by
  simpa [dict_sum] using foldl_add_eq (fun cw => cw.2 * value cw.1) w_dict 0

lemma scatter_obs_apply (o_val : ℚ) :
    ∀ (w_dict : WeightMap) (arr : Coord → ℚ) (c : Coord),
      scatter_obs arr o_val w_dict c = arr c + o_val * key_weight_sum w_dict c
  | [], arr, c => by simp [scatter_obs, key_weight_sum]
  | cw :: rest, arr, c => by
    have step : scatter_obs arr o_val (cw :: rest)
        = scatter_obs (Function.update arr cw.1 (arr cw.1 + o_val * cw.2)) o_val rest := by
      simp [scatter_obs]
    rw [step, scatter_obs_apply o_val rest _ c]
    by_cases hc : cw.1 = c
    · subst hc
      simp [Function.update, key_weight_sum]
      ring
    · simp [Function.update, key_weight_sum, hc, Ne.symm hc]

lemma calc_forcing_foldl (c : Coord) :
    ∀ (l : List (ℚ × WeightMap)) (arr : Coord → ℚ),
      l.foldl (fun a ow => scatter_obs a ow.1 ow.2) arr c
        = arr c + (l.map (fun ow => ow.1 * key_weight_sum ow.2 c)).sum
  | [], arr => by simp
  | ow :: rest, arr => by
    rw [List.foldl_cons, calc_forcing_foldl c rest _]
    rw [scatter_obs_apply]
    simp [add_assoc]

lemma calc_forcing_apply (obs_value : List ℚ) (weight_grid : List WeightMap)
    (c : Coord) :
    calc_forcing obs_value weight_grid c
      = ((obs_value.zip weight_grid).map
          (fun ow => ow.1 * key_weight_sum ow.2 c)).sum := by
  simpa [calc_forcing] using
    calc_forcing_foldl c (obs_value.zip weight_grid) (fun _ => 0)

lemma key_weight_sum_eq_zero {m : WeightMap} {c : Coord}
    (h : ∀ cw ∈ m, cw.1 ≠ c) : key_weight_sum m c = 0 := by
  induction m with
  | nil => rfl
  | cons cw rest ih =>
    have h1 : cw.1 ≠ c := h cw (List.mem_cons_self cw rest)
    have h2 : ∀ x ∈ rest, x.1 ≠ c := fun x hx => h x (List.mem_cons_of_mem cw hx)
    simp [key_weight_sum, h1, ih h2]

lemma key_weight_sum_of_mem_nodup {m : WeightMap} {c : Coord} {w0 : ℚ}
    (hmem : (c, w0) ∈ m) (hnodup : (m.map Prod.fst).Nodup) :
    key_weight_sum m c = w0 := by
  induction m with
  | nil => cases hmem
  | cons cw rest ih =>
    rcases List.mem_cons.1 hmem with heq | htail
    · have hkey : cw.1 = c := by rw [← heq]
      have hnot : c ∉ rest.map Prod.fst := by
        have := (List.nodup_cons.1 hnodup).1
        simpa [hkey] using this
      have hz : key_weight_sum rest c = 0 := by
        refine key_weight_sum_eq_zero (fun x hx hxc => hnot ?_)
        exact hxc ▸ List.mem_map_of_mem Prod.fst hx
      have hval : cw.2 = w0 := by rw [← heq]
      simp [key_weight_sum, hkey, hval, hz]
    · have hkey : cw.1 ≠ c := by
        intro hc
        have : c ∈ rest.map Prod.fst := by
          simpa using List.mem_map_of_mem Prod.fst htail
        exact ((List.nodup_cons.1 hnodup).1 (hc ▸ this))
      simp [key_weight_sum, hkey, ih htail (List.nodup_cons.1 hnodup).2]

lemma ite_map_sum (c : Coord) :
    ∀ m : WeightMap,
      (m.map (fun cw => if cw.1 = c then cw.2 else 0)).sum = key_weight_sum m c
  | [] => rfl
  | cw :: rest => by
    simp only [List.map_cons, List.sum_cons, key_weight_sum, ite_map_sum c rest]

lemma dict_sum_impulse (c : Coord) (m : WeightMap) :
    dict_sum m (impulse_field c) = key_weight_sum m c := by
  have hfun : (fun cw : Coord × ℚ => cw.2 * impulse_field c cw.1)
      = (fun cw : Coord × ℚ => if cw.1 = c then cw.2 else 0) := by
    funext cw
    by_cases hc : cw.1 = c <;> simp [impulse_field, hc]
  rw [dict_sum_eq, hfun, ite_map_sum]

lemma zip_replicate_zero_sum (c : Coord) :
    ∀ (n : Nat) (l : List WeightMap),
      (((List.replicate n (0 : ℚ)).zip l).map
        (fun ow => ow.1 * key_weight_sum ow.2 c)).sum = 0
  | 0, _ => by simp
  | n + 1, [] => by simp
  | n + 1, m :: rest => by
    simp [List.replicate_succ, zip_replicate_zero_sum c n rest]

lemma unit_vec_zip_sum (c : Coord) :
    ∀ (weight_grid : List WeightMap) (i : Nat), i < weight_grid.length →
      (((unit_vec weight_grid.length i).zip weight_grid).map
        (fun ow => ow.1 * key_weight_sum ow.2 c)).sum
        = key_weight_sum (weight_grid.getD i []) c
  | [], i, hi => by simp at hi
  | m :: rest, 0, _ => by
    simp [unit_vec, zip_replicate_zero_sum c rest.length rest]
  | m :: rest, i + 1, hi => by
    have hlt : i < rest.length := Nat.lt_of_succ_lt_succ (by simpa using hi)
    simp [unit_vec, unit_vec_zip_sum c rest i hlt]

lemma obs_operator_getD (weight_grid : List WeightMap) (value : Coord → ℚ)
    (i : Nat) (h : i < weight_grid.length) :
    (obs_operator weight_grid value).getD i 0
      = dict_sum (weight_grid.getD i []) value := by
  induction weight_grid generalizing i with
  | nil => simp at h
  | cons m rest ih =>
    cases i with
    | zero => simp [obs_operator]
    | succ j =>
      have hlt : j < rest.length := Nat.lt_of_succ_lt_succ (by simpa using h)
      simpa [obs_operator] using ih j hlt

/-- C4: for every model output field and every observation, the observation
operator returns as that observation's simulated value the weighted sum over
its sparse `{grid_cell: weight}` map applied to the simulated field of the
model output.  (In this code `ModelOutputData.value` is a single 2-D field:
the model output holds exactly one simulated time slice, which is therefore
the slice every observation samples; weight-map coordinates are `(row,col)`
pairs.) -/
theorem obs_operator_weighted_sum (weight_grid : List WeightMap)
    (value : Coord → ℚ) (i : Nat) (h : i < weight_grid.length) :
    (obs_operator weight_grid value).getD i 0
      = ((weight_grid.getD i []).map (fun cw => cw.2 * value cw.1)).sum := by
  rw [obs_operator_getD weight_grid value i h, dict_sum_eq]

/-- Closed instance of `obs_operator_weighted_sum`: one observation whose
weight map holds cells `(0,1)` with weight `3` and `(2,0)` with weight `5`,
sampled on the constant field `2`. -/
theorem obs_operator_weighted_sum_witness :
    (obs_operator [[(((0 : Nat), (1 : Nat)), (3 : ℚ)),
                    (((2 : Nat), (0 : Nat)), (5 : ℚ))]] (fun _ => 2)).getD 0 0
      = (([(((0 : Nat), (1 : Nat)), (3 : ℚ)),
           (((2 : Nat), (0 : Nat)), (5 : ℚ))]).map
          (fun cw => cw.2 * (fun _ => (2 : ℚ)) cw.1)).sum :=
  obs_operator_weighted_sum _ _ 0 (by decide)

/-- C5: the forcing operator scatters `weighted_residual × weight` into every
grid cell named in each observation's weight map, accumulating additively
when several observations target the same cell: the forcing field at any
cell `c` is the sum, over the observations, of that observation's residual
value times the total weight its map assigns to `c`.  (As with C4, the
forcing array in this code is a single 2-D field — one time slice — so the
per-observation coordinates are `(row,col)` pairs.) -/
theorem calc_forcing_scatter (obs_value : List ℚ)
    (weight_grid : List WeightMap) (c : Coord) :
    calc_forcing obs_value weight_grid c
      = ((obs_value.zip weight_grid).map
          (fun ow => ow.1 * key_weight_sum ow.2 c)).sum :=
  calc_forcing_apply obs_value weight_grid c

/-- C10: every cell of the adjoint forcing array that is not named in any
observation's weight map is exactly zero — `calc_forcing` starts from a zero
array and only adds at coordinates appearing in some weight map. -/
theorem calc_forcing_frame (obs_value : List ℚ) (weight_grid : List WeightMap)
    (c : Coord) (h : ∀ w_dict ∈ weight_grid, ∀ cw ∈ w_dict, cw.1 ≠ c) :
    calc_forcing obs_value weight_grid c = 0 := by
  rw [calc_forcing_apply]
  refine List.sum_eq_zero (fun x hx => ?_)
  rcases List.mem_map.1 hx with ⟨ow, how, hxeq⟩
  have hw : ow.2 ∈ weight_grid := (List.of_mem_zip how).2
  have hz : key_weight_sum ow.2 c = 0 :=
    key_weight_sum_eq_zero (fun cw hcw => h ow.2 hw cw hcw)
  rw [← hxeq, hz, mul_zero]

/-- Closed instance of `calc_forcing_frame`: a single observation touching
cells `(0,0)` and `(1,1)`; the untouched cell `(2,2)` stays zero. -/
theorem calc_forcing_frame_witness :
    calc_forcing [5] [[(((0 : Nat), (0 : Nat)), (2 : ℚ)),
                       (((1 : Nat), (1 : Nat)), (3 : ℚ))]] (2, 2) = 0 :=
  calc_forcing_frame _ _ _ (by decide)

/-- C3: weight-map duality.  For an observation `i` whose weight map holds
cell `c` with weight `w0`: the observation operator applied to a unit
impulse field at `c` simulates value `w0` for observation `i`, and the
forcing operator applied to a unit residual for observation `i` produces a
forcing field whose value at `c` is `w0` — forward sparse sampling and
adjoint scattering are transposes through the same weight map. -/
theorem weight_map_duality (weight_grid : List WeightMap) (i : Nat) (c : Coord)
    (w0 : ℚ) (hi : i < weight_grid.length)
    (hmem : (c, w0) ∈ weight_grid.getD i [])
    (hnodup : ((weight_grid.getD i []).map Prod.fst).Nodup) :
    (obs_operator weight_grid (impulse_field c)).getD i 0 = w0
    ∧ calc_forcing (unit_vec weight_grid.length i) weight_grid c = w0 := by
  have hkws : key_weight_sum (weight_grid.getD i []) c = w0 :=
    key_weight_sum_of_mem_nodup hmem hnodup
  constructor
  · rw [obs_operator_getD weight_grid _ i hi, dict_sum_impulse c, hkws]
  · rw [calc_forcing_apply, unit_vec_zip_sum c weight_grid i hi, hkws]

/-- Closed instance of `weight_map_duality`: one observation with weight map
`{(0,0): 2, (1,2): 5}`, tested at cell `(1,2)`. -/
theorem weight_map_duality_witness :
    (obs_operator [[(((0 : Nat), (0 : Nat)), (2 : ℚ)),
                    (((1 : Nat), (2 : Nat)), (5 : ℚ))]]
        (impulse_field (1, 2))).getD 0 0 = 5
    ∧ calc_forcing (unit_vec 1 0)
        [[(((0 : Nat), (0 : Nat)), (2 : ℚ)),
          (((1 : Nat), (2 : Nat)), (5 : ℚ))]] (1, 2) = 5 :=
  weight_map_duality _ 0 _ _ (by decide) (by decide) (by decide)

/-- Modelled from the spec: the transform chain and `ObservationData` /
`UnknownData` classes used by `fourdvar/_main_driver.py` are not among the
provided source files (the driver only calls them).  Per the spec, the
forward chain `UnknownVector → PhysicalField → ModelInput → ModelOutput →
ObservationSet` is a composite function from the unknown vector to simulated
observation values, and the adjoint chain `ObservationSet(residual) →
AdjointForcing → SensitivityField → PhysicalAdjointField → UnknownVector`
is a composite of four stage maps.  `bg_vector` is the fixed result of
`transform(user_driver.get_background(), UnknownData).get_vector()`;
`UnknownData(vector).get_vector()` returns `vector` itself. -/
structure DriverEnv (AdjFor Sens PhysAdj : Type) where
  bg_vector : List ℚ
  observed_value : List ℚ
  observed_unc : List ℚ
  forward_sim : List ℚ → List ℚ
  to_forcing : List ℚ → AdjFor
  to_sensitivity : AdjFor → Sens
  to_phys_adjoint : Sens → PhysAdj
  to_unknown_gradient : PhysAdj → List ℚ

/-- Modelled from the spec: `ObservationData.get_residual(observed, simulated)`
is not among the provided source files; spec 4.2: `residual =
observed.value − simulated.value`, independently per observation. -/
def get_residual (observed simulated : List ℚ) : List ℚ :=
  List.zipWith (fun o s => o - s) observed simulated

/-- Modelled from the spec: `ObservationData.error_weight(residual)` is not
among the provided source files; spec 4.2: error-weighting divides (or
multiplies by inverse covariance) per observation uncertainty, independently
per observation (diagonal covariance), i.e. `residual / uncertainty²`. -/
def error_weight (unc residual : List ℚ) : List ℚ :=
  List.zipWith (fun u r => r / (u * u)) unc residual

/-- Embeds `fourdvar/_main_driver.py::cost_func`, line for line: run the
forward chain from `vector` to simulated observations, form the residual and
weighted residual, and return `0.5 * np.sum((un_vector - bg_vector)**2) +
0.5 * np.sum(res_vector * wres_vector)`. -/
def cost_func {AdjFor Sens PhysAdj : Type} (env : DriverEnv AdjFor Sens PhysAdj)
    (vector : List ℚ) : ℚ :=
  let bg_vector := env.bg_vector
  let simulated := env.forward_sim vector
  let residual := get_residual env.observed_value simulated
  let w_residual := error_weight env.observed_unc residual
  let un_vector := vector
  let bg_cost := (1 / 2 : ℚ) *
    (List.zipWith (fun a b => (a - b) ^ 2) un_vector bg_vector).sum
  let ob_cost := (1 / 2 : ℚ) * (List.zipWith (fun a b => a * b) residual w_residual).sum
  bg_cost + ob_cost

/-- Embeds `fourdvar/_main_driver.py::gradient_func`, line for line: run the
same forward chain, then the adjoint chain `w_residual → AdjointForcingData
→ SensitivityData → PhysicalAdjointData → UnknownData`, and return
`(un_vector - bg_vector) + unknown_gradient.get_vector()` (numpy elementwise
addition and subtraction). -/
def gradient_func {AdjFor Sens PhysAdj : Type}
    (env : DriverEnv AdjFor Sens PhysAdj) (vector : List ℚ) : List ℚ :=
  let simulated := env.forward_sim vector
  let residual := get_residual env.observed_value simulated
  let w_residual := error_weight env.observed_unc residual
  let adj_forcing := env.to_forcing w_residual
  let model_sensitivity := env.to_sensitivity adj_forcing
  let physical_sensitivity := env.to_phys_adjoint model_sensitivity
  let unknown_gradient := env.to_unknown_gradient physical_sensitivity
  let bg_grad := List.zipWith (fun a b => a - b) vector env.bg_vector
  List.zipWith (fun a b => a + b) bg_grad unknown_gradient

lemma zipWith_sub_sq_self_sum (l : List ℚ) :
    (List.zipWith (fun a b => (a - b) ^ 2) l l).sum = 0 := by
  induction l with
  | nil => rfl
  | cons x xs ih => simp [ih]

/-- C1: for every input vector, `cost_func` returns `0.5·Σ(vector −
background)² + 0.5·Σ(residual·weighted_residual)` where the residual comes
from the forward chain at `vector`; and at `vector = background_vector` the
background term vanishes, leaving exactly `0.5·Σ(residual·weighted_residual)`
evaluated at the prior. -/
theorem cost_func_spec {AdjFor Sens PhysAdj : Type}
    (env : DriverEnv AdjFor Sens PhysAdj) (vector : List ℚ) :
    cost_func env vector
      = (1 / 2 : ℚ) *
          (List.zipWith (fun a b => (a - b) ^ 2) vector env.bg_vector).sum
        + (1 / 2 : ℚ) *
          (List.zipWith (fun a b => a * b)
            (get_residual env.observed_value (env.forward_sim vector))
            (error_weight env.observed_unc
              (get_residual env.observed_value (env.forward_sim vector)))).sum
    ∧ cost_func env env.bg_vector
      = (1 / 2 : ℚ) *
          (List.zipWith (fun a b => a * b)
            (get_residual env.observed_value (env.forward_sim env.bg_vector))
            (error_weight env.observed_unc
              (get_residual env.observed_value
                (env.forward_sim env.bg_vector)))).sum := by
  constructor
  · rfl
  · show (1 / 2 : ℚ) *
        (List.zipWith (fun a b => (a - b) ^ 2) env.bg_vector env.bg_vector).sum
        + _ = _
    rw [zipWith_sub_sq_self_sum, mul_zero, zero_add]

/-- C2: for every input vector, `gradient_func` returns the elementwise
difference `vector − background_vector` plus the adjoint unknown gradient
obtained by running the adjoint chain (forcing operator, sensitivity chain,
sensitivity mapper, adjoint unknown transform) on the weighted residual of
that vector's forward chain. -/
theorem gradient_func_spec {AdjFor Sens PhysAdj : Type}
    (env : DriverEnv AdjFor Sens PhysAdj) (vector : List ℚ) :
    gradient_func env vector
      = List.zipWith (fun a b => a + b)
          (List.zipWith (fun a b => a - b) vector env.bg_vector)
          (env.to_unknown_gradient (env.to_phys_adjoint (env.to_sensitivity
            (env.to_forcing (error_weight env.observed_unc
              (get_residual env.observed_value (env.forward_sim vector))))))) :=
  rfl

/-- Seconds per day (`daysec = 24*60*60` in the Python source). -/
def daysec : Nat := 24 * 60 * 60

/-- A 4-D numpy array `(time, layer, row, col)`: its shape plus the
flattened float payload.  A value of this type has 4 dimensions by
construction, which models the `len(emis_data.shape) == 4` assert of
`PhysicalAbstractData.__init__`. -/
structure Arr4 where
  nt : Nat
  nl : Nat
  nr : Nat
  nc : Nat
  data : List ℚ
deriving DecidableEq

/-- A 2-D numpy array, used for the emission correlation matrix
(`shape = (nall_cells, nunknowns)`). -/
structure Arr2 where
  rows : Nat
  cols : Nat
  data : List ℚ
deriving DecidableEq

/-- The shape tuple of an `Arr4`, as unpacked by
`ent,enl,enr,enc = emis_data.shape`. -/
def shape4 (a : Arr4) : Nat × Nat × Nat × Nat := (a.nt, a.nl, a.nr, a.nc)

/-- The resolved class-level parameters of `PhysicalAbstractData` once all
are defined (none is Python `None`), as `assert_params` requires before
`__init__` may run. -/
structure PhysParams where
  tsec : Nat
  nstep : Nat
  nlays_emis : Nat
  nrows : Nat
  ncols : Nat
  spcs : List String
  emis_unc_vector : List ℚ
  emis_corr_matrix : Arr2
  nall_cells : Nat
  nunknowns : Nat
deriving DecidableEq

/-- The per-instance data a successful `PhysicalAbstractData.__init__`
populates: `self.icon` and `self.emis`, keyed by species in `spcs` order. -/
structure PhysState where
  icon : List (String × ℚ)
  emis : List (String × Arr4)
deriving DecidableEq

/-- The step-size check of `PhysicalAbstractData.assert_params`:
`max(24*60*60, cls.tsec) % min(24*60*60, cls.tsec) == 0`.  (For `tsec = 0`
Python raises `ZeroDivisionError` instead; in either semantics the check
does not pass.) -/
def tsec_ok (tsec : Nat) : Bool :=
  max daysec tsec % min daysec tsec == 0

/-- The step-count check of `PhysicalAbstractData.assert_params`:
`(cls.tsec >= 24*60*60) or (cls.nstep % ((24*60*60)//cls.tsec) == 0)`. -/
def nstep_ok (tsec nstep : Nat) : Bool :=
  (daysec ≤ tsec) || (nstep % (daysec / tsec) == 0)

/-- Python `set(keys) == set(spcs)` on two key lists. -/
def same_key_set (a b : List String) : Bool :=
  a.all (fun k => b.contains k) && b.all (fun k => a.contains k)

/-- The per-species loop of `PhysicalAbstractData.__init__` (lines 68–83):
for each species name in `self.spcs` order, validate and store the icon
scale (when `inc_icon`) and the emission array, checking its shape against
the class parameters.  Dict lookups cannot miss after the key-set asserts,
but the `KeyError` branch is kept for faithfulness. -/
def phys_init_loop (inc_icon : Bool) (p : PhysParams)
    (icon_dict : List (String × ℚ)) (emis_dict : List (String × Arr4)) :
    List String → PhysState → Except String PhysState
  | [], st => .ok st
  | spc :: rest, st => do
    let st1 ←
      if inc_icon then
        match icon_dict.lookup spc with
        | none => .error "KeyError"
        | some icon_data =>
          if icon_data < 0 then .error "icon scaling cannot be negative."
          else .ok (PhysState.mk (st.icon ++ [(spc, icon_data)]) st.emis)
      else .ok st
    match emis_dict.lookup spc with
    | none => .error "KeyError"
    | some emis_data =>
      if emis_data.nt ≠ p.nstep then .error "emis timesteps invalid."
      else if emis_data.nl ≠ p.nlays_emis then .error "emis layers invalid."
      else if emis_data.nr ≠ p.nrows then .error "emis rows invalid."
      else if emis_data.nc ≠ p.ncols then .error "emis columns invalid."
      else
        phys_init_loop inc_icon p icon_dict emis_dict rest
          (PhysState.mk st1.icon (st1.emis ++ [(spc, emis_data)]))

/-- Embeds `PhysicalAbstractData.__init__` (lines 47–84): `assert_params`
first, then the icon and emis key-set asserts (`set(dict.keys()) ==
set(self.spcs)`), then the per-species population loop.  A failed assert is
an `Except.error` carrying the assert message: the constructor raises and no
instance is produced. -/
def phys_init (inc_icon : Bool) (p : PhysParams)
    (icon_dict : List (String × ℚ)) (emis_dict : List (String × Arr4)) :
    Except String PhysState :=
  if !(tsec_ok p.tsec) then .error "invalid step size (tsec)."
  else if !(nstep_ok p.tsec p.nstep) then .error "invalid step count (nstep)."
  else if inc_icon && !(same_key_set (icon_dict.map Prod.fst) p.spcs) then
    .error "invalid icon spcs."
  else if !(same_key_set (emis_dict.map Prod.fst) p.spcs) then
    .error "invalid emis spcs."
  else phys_init_loop inc_icon p icon_dict emis_dict p.spcs (PhysState.mk [] [])

/-- C7: constructing a PhysicalData / PhysicalAdjointData (`inc_icon` is
`False` in `fourdvar/params/input_defn.py`) from a species dictionary whose
key set is missing one required species fails at construction time with the
validation error `invalid emis spcs.`, and no partially-valid instance is
produced: the failing key-set check precedes the loop that populates the
per-species emission data, so the constructor returns an error and the
per-species data is never populated for any species. -/
theorem phys_init_missing_spc (p : PhysParams) (icon_dict : List (String × ℚ))
    (emis_dict : List (String × Arr4)) (spc : String)
    (h1 : tsec_ok p.tsec = true) (h2 : nstep_ok p.tsec p.nstep = true)
    (hspc : spc ∈ p.spcs) (hmiss : spc ∉ emis_dict.map Prod.fst) :
    phys_init false p icon_dict emis_dict = .error "invalid emis spcs." := by
  have hkeys : same_key_set (emis_dict.map Prod.fst) p.spcs = false := by
    apply Bool.and_eq_false_iff.2
    right
    refine List.all_eq_false.2 ⟨spc, hspc, ?_⟩
    simpa using hmiss
  simp [phys_init, h1, h2, hkeys]

/-- Closed instance of `phys_init_missing_spc`: required species
`["CO2", "CH4"]`, emission dict holding only `CO2`. -/
theorem phys_init_missing_spc_witness :
    phys_init false
      (PhysParams.mk 3600 24 1 1 1 ["CO2", "CH4"] [1] (Arr2.mk 2 1 [1, 1]) 2 1)
      [] [("CO2", Arr4.mk 24 1 1 1 [])]
      = .error "invalid emis spcs." :=
  phys_init_missing_spc _ _ _ "CH4" (by decide) (by decide) (by decide)
    (by decide)

/-- Python `'{:<16}'.format(s)`: left-justify to width 16. -/
def pad16 (s : String) : String :=
  s ++ String.mk (List.replicate (16 - s.length) ' ')

/-- The global attributes an archive file carries: `SDATE`, `EDATE`,
`TSTEP` as `[day, packed HHMMSS]`, and the fixed-width `VAR-LIST`. -/
structure ArchiveAttrs where
  sdate : Int
  edate : Int
  tstep_day : Nat
  tstep_hms : Nat
  var_list : String
deriving DecidableEq

/-- Embeds the attribute block of `PhysicalAbstractData.archive` (lines
105–113): `minute, second = divmod(self.tsec, 60); hour, minute =
divmod(minute, 60); day, hour = divmod(hour, 24); hms =
int('{:02}{:02}{:02}'.format(hour, minute, second))` — after the divmods
`hour < 24`, `minute < 60`, `second < 60`, so the formatted integer is
`hour*10000 + minute*100 + second` — and `VAR-LIST` is the concatenation of
the species names left-justified to 16 characters. -/
def archive_attrs (sdate edate : Int) (tsec : Nat) (spcs : List String) :
    ArchiveAttrs :=
  let minute := tsec / 60
  let second := tsec % 60
  let hour := minute / 60
  let minute2 := minute % 60
  let day := hour / 24
  let hour2 := hour % 24
  ArchiveAttrs.mk sdate edate day (hour2 * 10000 + minute2 * 100 + second)
    (String.join (spcs.map pad16))

/-- Embeds `fourdvar/util/netcdf_handle.py::phys_archive` (lines 155–209) up
to the point it fails.  The routine computes `minute, second =
divmod(phys.tsec, 60); hour, minute = divmod(minute, 60); day, hour =
divmod(hour, 24)` and then evaluates `hms =
int('{:02}{:02}{:02}'.format(h, m, s))` — but no names `h`, `m`, `s` are
bound anywhere in the function or the module, so Python raises `NameError`
here on every call, before any `TSTEP` or `VAR-LIST` attribute is written,
whatever the instance holds. -/
def phys_archive (tsec : Nat) : Except String ArchiveAttrs :=
  let _minute := tsec / 60
  let _second := tsec % 60
  let _hour := _minute / 60
  let _minute2 := _minute % 60
  let _day := _hour / 24
  let _hour2 := _hour % 24
  .error "NameError: name h is not defined"

/-- C9: the claim says serializing a valid physical-data instance completes
without error and writes `SDATE`, `EDATE`, `TSTEP` (day count plus packed
HHMMSS) and `VAR-LIST`.  `PhysicalAbstractData.archive` does exactly that
(second conjunct, at `tsec = 3600`, one species), but the serialization
routine `netcdf_handle.phys_archive` raises `NameError` on every valid
instance (first conjunct): its packed-HHMMSS line formats the undefined
names `h`, `m`, `s` instead of the computed `hour`, `minute`, `second`. -/
theorem phys_archive_name_error :
    phys_archive 3600 = .error "NameError: name h is not defined"
    ∧ archive_attrs 2016001 2016007 3600 ["CO2"]
        = ArchiveAttrs.mk 2016001 2016007 0 10000 (pad16 "CO2") := by
  exact ⟨rfl, rfl⟩

/-- A Python value as carried by the dynamically-typed `par_name`/`par_val`
loop of `PhysicalAbstractData.from_file`: the shared class parameters are
numbers, the species name list, the uncertainty vector or the correlation
matrix. -/
inductive PVal : Type
  | num (v : Nat)
  | strs (v : List String)
  | vec (v : List ℚ)
  | mat (v : Arr2)
deriving DecidableEq

/-- The class-attribute store of `PhysicalAbstractData`
(`getattr`/`setattr` by parameter name); `none` is Python `None`, the
state of a parameter that has never been defined. -/
def ClassState : Type := String → Option PVal

/-- Embeds `par_mutable = ['emis_unc_vector, emis_corr_matrix']` exactly as
the source writes it: the list holds ONE string (the comma sits inside the
string literal), so no actual parameter name is ever a member and the
mutable warn-and-overwrite branch of the update loop is dead code. -/
def par_mutable : List String := ["emis_unc_vector, emis_corr_matrix"]

/-- Embeds the parameter check-and-set loop of
`PhysicalAbstractData.from_file` (lines 212–224): for each `(name, val)`
pair, when the attribute is already defined and the name is not in
`par_mutable`, assert `np.all(old_val == val)` with message
`cannot change PhysicalAbstractData.<name>`; in every non-failing case set
the attribute to the file's value. -/
def param_loop : List (String × PVal) → ClassState → Except String ClassState
  | [], st => .ok st
  | (name, val) :: rest, st =>
    match st name with
    | none => param_loop rest (Function.update st name (some val))
    | some old =>
      if name ∈ par_mutable then
        param_loop rest (Function.update st name (some val))
      else if old = val then
        param_loop rest (Function.update st name (some val))
      else .error ("cannot change PhysicalAbstractData." ++ name)

/-- The values `PhysicalAbstractData.from_file` reads from its netCDF
archive file (`inc_icon` is `False` in `fourdvar/params/input_defn.py`, so
the icon group is not read): global attributes `SDATE`, `EDATE`, `TSTEP`
`= [day, packed HHMMSS]`, `VAR-LIST`, the per-species emission variables of
group `emis`, and the `corr_unc` group's uncertainty vector and correlation
matrix. -/
structure PhysFileData where
  sdate : String
  edate : String
  tstep_day : Nat
  tstep_hms : Nat
  spcs_list : List String
  emis_vars : List (String × Arr4)
  unc_vector : List ℚ
  corr_matrix : Arr2
deriving DecidableEq

/-- `tsec = daysec*day + 3600*(step//10000) + 60*((step//100)%100) +
(step)%100` from the file's `TSTEP` attribute (from_file line 163). -/
def file_tsec (f : PhysFileData) : Nat :=
  daysec * f.tstep_day + 3600 * (f.tstep_hms / 10000)
    + 60 * ((f.tstep_hms / 100) % 100) + f.tstep_hms % 100

/-- `ncf.get_variable(filename, spcs_list, group='emis')` returns the dict
of the group's variables whose names are in `spcs_list`. -/
def file_emis_dict (f : PhysFileData) : List (String × Arr4) :=
  f.emis_vars.filter (fun kv => f.spcs_list.contains kv.1)

/-- `emis_shape[0]`, the shape every species' emission array must match
(`estep, elays, erows, ecols`); reading it from an empty dict is Python
`IndexError`, handled where `phys_from_file` matches on the dict. -/
def file_first_arr (f : PhysFileData) : Arr4 :=
  ((file_emis_dict f).headD ("", Arr4.mk 0 0 0 0 [])).2

/-- The `zip(par_name, par_val)` list of from_file lines 202–205, in source
order: parameter names paired with the values derived from the file. -/
def file_par_list (f : PhysFileData) : List (String × PVal) :=
  [("tsec", .num (file_tsec f)),
   ("nstep", .num (file_first_arr f).nt),
   ("nlays_emis", .num (file_first_arr f).nl),
   ("nrows", .num (file_first_arr f).nr),
   ("ncols", .num (file_first_arr f).nc),
   ("spcs", .strs f.spcs_list),
   ("emis_unc_vector", .vec f.unc_vector),
   ("emis_corr_matrix", .mat f.corr_matrix),
   ("nall_cells", .num f.corr_matrix.rows),
   ("nunknowns", .num f.corr_matrix.cols)]

/-- The class parameters as they stand after the update loop has set every
attribute to the file's value (what `cls(icon_dict, emis_dict)` then reads). -/
def file_phys_params (f : PhysFileData) : PhysParams :=
  PhysParams.mk (file_tsec f) (file_first_arr f).nt (file_first_arr f).nl
    (file_first_arr f).nr (file_first_arr f).nc f.spcs_list f.unc_vector
    f.corr_matrix f.corr_matrix.rows f.corr_matrix.cols

/-- Embeds `PhysicalAbstractData.from_file` (lines 147–228, `inc_icon`
`False`): derive `tsec` and the emission dict from the file; assert the
start/end dates, the equal per-species shapes (`IndexError` on an empty
dict), the `tsec`/`nstep` divisibility rules and the uncertainty shape
rules; run the parameter check-and-set loop against the current class
attributes; finally construct the instance (`cls(None, emis_dict)`) with
the freshly set class parameters. -/
def phys_from_file (expected_sdate expected_edate : String) (st : ClassState)
    (f : PhysFileData) : Except String (ClassState × PhysState) :=
  let tsec := file_tsec f
  let emis_dict := file_emis_dict f
  if f.sdate ≠ expected_sdate then .error "invalid start date"
  else if f.edate ≠ expected_edate then .error "invalid end date"
  else
    match emis_dict with
    | [] => .error "IndexError: list index out of range"
    | e0 :: erest =>
      if !(erest.all (fun kv => shape4 kv.2 == shape4 e0.2)) then
        .error "all emis spcs must have the same shape."
      else if !(max daysec tsec % min daysec tsec == 0) then
        .error "tsec must be a factor or multiple of No. seconds in a day."
      else if !((daysec ≤ tsec) || (e0.2.nt % (daysec / tsec) == 0)) then
        .error "nstep must cleanly divide into days."
      else if !(f.unc_vector.length == f.corr_matrix.cols) then
        .error "Uncertainty values are invalid for this data."
      else if !(f.corr_matrix.rows
          == f.spcs_list.length * e0.2.nt * e0.2.nl * e0.2.nr * e0.2.nc) then
        .error "Uncertainty values are invalid for this data."
      else do
        let st2 ← param_loop (file_par_list f) st
        let inst ← phys_init false (file_phys_params f) [] (e0 :: erest)
        .ok (st2, inst)

lemma param_loop_ok :
    ∀ (l : List (String × PVal)) (st : ClassState),
      (l.map Prod.fst).Nodup →
      (∀ nv ∈ l, ∀ old, st nv.1 = some old → old = nv.2) →
      ∃ st2, param_loop l st = .ok st2
  | [], st, _, _ => ⟨st, rfl⟩
  | (name, val) :: rest, st, hnd, hag => by
    rw [List.map_cons] at hnd
    have hpair := List.nodup_cons.1 hnd
    have hagr : ∀ nv ∈ rest, ∀ old,
        (Function.update st name (some val)) nv.1 = some old → old = nv.2 := by
      intro nv hnv old hold
      have hne : nv.1 ≠ name := by
        intro he
        have hmm : nv.1 ∈ rest.map Prod.fst := List.mem_map_of_mem Prod.fst hnv
        exact hpair.1 (he ▸ hmm)
      rw [Function.update_apply, if_neg hne] at hold
      exact hag nv (List.mem_cons_of_mem _ hnv) old hold
    cases hst : st name with
    | none =>
      simpa [param_loop, hst] using param_loop_ok rest _ hpair.2 hagr
    | some old =>
      have hov : old = val := hag (name, val) (List.mem_cons_self _ _) old hst
      subst hov
      by_cases hm : name ∈ par_mutable
      · simpa [param_loop, hst, hm] using param_loop_ok rest _ hpair.2 hagr
      · simpa [param_loop, hst, hm] using param_loop_ok rest _ hpair.2 hagr

lemma param_loop_error :
    ∀ (l : List (String × PVal)) (st : ClassState),
      (l.map Prod.fst).Nodup →
      (∀ nv ∈ l, nv.1 ∉ par_mutable) →
      (∃ nv ∈ l, ∃ old, st nv.1 = some old ∧ old ≠ nv.2) →
      ∃ msg, param_loop l st = .error msg
  | [], _, _, _, hcl => by
    rcases hcl with ⟨nv, hnv, _⟩
    cases hnv
  | (name, val) :: rest, st, hnd, hmut, hcl => by
    rw [List.map_cons] at hnd
    have hpair := List.nodup_cons.1 hnd
    have hmutr : ∀ nv ∈ rest, nv.1 ∉ par_mutable :=
      fun nv hnv => hmut nv (List.mem_cons_of_mem _ hnv)
    cases hst : st name with
    | none =>
      obtain ⟨nv, hnv, old, hold, hne⟩ := hcl
      rcases List.mem_cons.1 hnv with he | ht
      · rw [he] at hold
        rw [hst] at hold
        cases hold
      · have hne1 : nv.1 ≠ name := by
          intro heq
          have hmm : nv.1 ∈ rest.map Prod.fst := List.mem_map_of_mem Prod.fst ht
          exact hpair.1 (heq ▸ hmm)
        have hold2 : (Function.update st name (some val)) nv.1 = some old := by
          rw [Function.update_apply, if_neg hne1]
          exact hold
        have := param_loop_error rest (Function.update st name (some val))
          hpair.2 hmutr ⟨nv, ht, old, hold2, hne⟩
        simpa [param_loop, hst] using this
    | some old =>
      by_cases hov : old = val
      · subst hov
        obtain ⟨nv, hnv, old2, hold, hne⟩ := hcl
        rcases List.mem_cons.1 hnv with he | ht
        · rw [he] at hold hne
          rw [hst] at hold
          cases hold
          exact absurd rfl hne
        · have hne1 : nv.1 ≠ name := by
            intro heq
            have hmm : nv.1 ∈ rest.map Prod.fst := List.mem_map_of_mem Prod.fst ht
            exact hpair.1 (heq ▸ hmm)
          have hold2 : (Function.update st name (some old)) nv.1 = some old2 := by
            rw [Function.update_apply, if_neg hne1]
            exact hold
          have := param_loop_error rest (Function.update st name (some old))
            hpair.2 hmutr ⟨nv, ht, old2, hold2, hne⟩
          by_cases hm : name ∈ par_mutable
          · simpa [param_loop, hst, hm] using this
          · simpa [param_loop, hst, hm] using this
      · refine ⟨"cannot change PhysicalAbstractData." ++ name, ?_⟩
        have hm : name ∉ par_mutable := hmut (name, val) (List.mem_cons_self _ _)
        simp [param_loop, hst, hm, hov]

lemma lookup_of_mem_keys {β : Type} :
    ∀ (l : List (String × β)) (k : String), k ∈ l.map Prod.fst →
      ∃ v, l.lookup k = some v ∧ (k, v) ∈ l
  | [], k, h => by simp at h
  | (k1, v1) :: rest, k, h => by
    by_cases he : k = k1
    · subst he
      have hb : (k == k) = true := by simp
      exact ⟨v1, by simp [List.lookup, hb], List.mem_cons_self _ _⟩
    · have hb : (k == k1) = false := by simp [he]
      have hr : k ∈ rest.map Prod.fst := by
        rw [List.map_cons] at h
        rcases List.mem_cons.1 h with h1 | h2
        · exact absurd h1 he
        · exact h2
      obtain ⟨v, hv, hm⟩ := lookup_of_mem_keys rest k hr
      refine ⟨v, ?_, List.mem_cons_of_mem _ hm⟩
      simp [List.lookup, hb, hv]

lemma phys_init_loop_ok (p : PhysParams) (emis_dict : List (String × Arr4)) :
    ∀ (spcs : List String) (st : PhysState),
      (∀ spc ∈ spcs, ∃ arr, emis_dict.lookup spc = some arr
        ∧ arr.nt = p.nstep ∧ arr.nl = p.nlays_emis ∧ arr.nr = p.nrows
        ∧ arr.nc = p.ncols) →
      ∃ st2, phys_init_loop false p [] emis_dict spcs st = .ok st2
  | [], st, _ => ⟨st, rfl⟩
  | spc :: rest, st, h => by
    obtain ⟨arr, hlk, h1, h2, h3, h4⟩ := h spc (List.mem_cons_self _ _)
    have hrest := fun s hs => h s (List.mem_cons_of_mem _ hs)
    have := phys_init_loop_ok p emis_dict rest
      (PhysState.mk st.icon (st.emis ++ [(spc, arr)])) hrest
    simpa [phys_init_loop, hlk, h1, h2, h3, h4] using this

/-- C8: once a class-level shared parameter (timestep size `tsec`, step
count, layer/row/column dimensions, species list, uncertainty vector,
correlation matrix) is defined, `PhysicalAbstractData.from_file` fails
fatally on any attempt to redefine it to a conflicting value (first
conjunct: some already-defined parameter differs from the file's value),
while loading a file whose parameters all match the existing values
succeeds (second conjunct).  The `par_mutable` list of the source holds the
single string `'emis_unc_vector, emis_corr_matrix'` (one element, comma
inside the literal), so even the uncertainty parameters take the
assert-on-clash path. -/
theorem phys_from_file_shared_params (esd eed : String) (st : ClassState)
    (f : PhysFileData)
    (hsd : f.sdate = esd) (hed : f.edate = eed)
    (hne : file_emis_dict f ≠ [])
    (hsh : ∀ kv ∈ file_emis_dict f, shape4 kv.2 = shape4 (file_first_arr f))
    (ht1 : tsec_ok (file_tsec f) = true)
    (ht2 : nstep_ok (file_tsec f) (file_first_arr f).nt = true)
    (hu1 : f.unc_vector.length = f.corr_matrix.cols)
    (hu2 : f.corr_matrix.rows = f.spcs_list.length * (file_first_arr f).nt
      * (file_first_arr f).nl * (file_first_arr f).nr * (file_first_arr f).nc)
    (hkeys : same_key_set ((file_emis_dict f).map Prod.fst) f.spcs_list = true) :
    ((∃ nv ∈ file_par_list f, ∃ old, st nv.1 = some old ∧ old ≠ nv.2) →
      ∃ msg, phys_from_file esd eed st f = .error msg)
    ∧ ((∀ nv ∈ file_par_list f, ∀ old, st nv.1 = some old → old = nv.2) →
      ∃ r, phys_from_file esd eed st f = .ok r) := by
  cases hE : file_emis_dict f with
  | nil => exact absurd hE hne
  | cons e0 erest =>
  have hfa : file_first_arr f = e0.2 := by simp [file_first_arr, hE]
  have hsh2 : erest.all (fun kv => shape4 kv.2 == shape4 e0.2) = true := by
    refine List.all_eq_true.2 (fun kv hkv => ?_)
    have hm : kv ∈ file_emis_dict f := by
      rw [hE]
      exact List.mem_cons_of_mem _ hkv
    have hs := hsh kv hm
    rw [hfa] at hs
    exact beq_iff_eq.2 hs
  unfold tsec_ok at ht1
  unfold nstep_ok at ht2
  have ht2e := ht2
  rw [hfa] at ht2e
  have hu2e := hu2
  rw [hfa] at hu2e
  have hu1b : (f.unc_vector.length == f.corr_matrix.cols) = true := beq_iff_eq.2 hu1
  have hu2b : (f.corr_matrix.rows
      == f.spcs_list.length * e0.2.nt * e0.2.nl * e0.2.nr * e0.2.nc) = true :=
    beq_iff_eq.2 hu2e
  have hred : phys_from_file esd eed st f
      = (param_loop (file_par_list f) st).bind (fun st2 =>
          (phys_init false (file_phys_params f) [] (e0 :: erest)).bind
            (fun inst => Except.ok (st2, inst))) := by
    simp [phys_from_file, hsd, hed, hE, hsh2, ht1, ht2e, hu1b, hu2b, Bind.bind]
  have hnames : (file_par_list f).map Prod.fst
      = ["tsec", "nstep", "nlays_emis", "nrows", "ncols", "spcs",
         "emis_unc_vector", "emis_corr_matrix", "nall_cells", "nunknowns"] := rfl
  have hnodup : ((file_par_list f).map Prod.fst).Nodup := by
    rw [hnames]
    decide
  have hnm : ∀ nv ∈ file_par_list f, nv.1 ∉ par_mutable := by
    intro nv hnv
    have hmm : nv.1 ∈ (file_par_list f).map Prod.fst :=
      List.mem_map_of_mem Prod.fst hnv
    rw [hnames] at hmm
    simp only [List.mem_cons, List.not_mem_nil, or_false] at hmm
    rcases hmm with h|h|h|h|h|h|h|h|h|h <;> rw [h] <;> decide
  have hinit : ∃ inst, phys_init false (file_phys_params f) [] (e0 :: erest)
      = .ok inst := by
    have c3 : same_key_set ((e0 :: erest).map Prod.fst)
        (file_phys_params f).spcs = true := by
      rw [← hE]
      exact hkeys
    have harg : ∀ spc ∈ (file_phys_params f).spcs,
        ∃ arr, (e0 :: erest).lookup spc = some arr
          ∧ arr.nt = (file_phys_params f).nstep
          ∧ arr.nl = (file_phys_params f).nlays_emis
          ∧ arr.nr = (file_phys_params f).nrows
          ∧ arr.nc = (file_phys_params f).ncols := by
      intro spc hspc
      have hall := (Bool.and_eq_true_iff.1 hkeys).2
      have hcon : ((file_emis_dict f).map Prod.fst).contains spc = true :=
        List.all_eq_true.1 hall spc hspc
      have hmemk : spc ∈ (file_emis_dict f).map Prod.fst := by
        simpa using hcon
      rw [hE] at hmemk
      obtain ⟨arr, hlk, hmem⟩ := lookup_of_mem_keys (e0 :: erest) spc hmemk
      have hmem2 : (spc, arr) ∈ file_emis_dict f := by
        rw [hE]
        exact hmem
      have hsha := hsh (spc, arr) hmem2
      rw [hfa] at hsha
      simp only [shape4, Prod.mk.injEq] at hsha
      have g1 : arr.nt = (file_phys_params f).nstep := by
        show arr.nt = (file_first_arr f).nt
        rw [hfa]
        exact hsha.1
      have g2 : arr.nl = (file_phys_params f).nlays_emis := by
        show arr.nl = (file_first_arr f).nl
        rw [hfa]
        exact hsha.2.1
      have g3 : arr.nr = (file_phys_params f).nrows := by
        show arr.nr = (file_first_arr f).nr
        rw [hfa]
        exact hsha.2.2.1
      have g4 : arr.nc = (file_phys_params f).ncols := by
        show arr.nc = (file_first_arr f).nc
        rw [hfa]
        exact hsha.2.2.2
      exact ⟨arr, hlk, g1, g2, g3, g4⟩
    obtain ⟨inst, hloop⟩ := phys_init_loop_ok (file_phys_params f) (e0 :: erest)
      (file_phys_params f).spcs (PhysState.mk [] []) harg
    refine ⟨inst, ?_⟩
    have c1 : tsec_ok (file_phys_params f).tsec = true := by
      unfold tsec_ok
      exact ht1
    have c2 : nstep_ok (file_phys_params f).tsec (file_phys_params f).nstep
        = true := by
      unfold nstep_ok
      exact ht2
    have c3b : same_key_set (e0.1 :: erest.map Prod.fst)
        (file_phys_params f).spcs = true := by
      simpa using c3
    simp [phys_init, c1, c2, c3, c3b, hloop]
  constructor
  · intro hclash
    obtain ⟨msg, hml⟩ := param_loop_error (file_par_list f) st hnodup hnm hclash
    refine ⟨msg, ?_⟩
    rw [hred, hml]
    rfl
  · intro hag
    obtain ⟨st2, hok⟩ := param_loop_ok (file_par_list f) st hnodup hag
    obtain ⟨inst, hi⟩ := hinit
    refine ⟨(st2, inst), ?_⟩
    rw [hred, hok]
    simp [Except.bind, hi]

/-- Concrete archive-file content for the closed instance of the shared
parameter theorem: one species, `TSTEP = [0, 10000]` (one hour, `tsec =
3600`), 24 emission steps of shape `(24,1,1,1)`. -/
def wfile : PhysFileData :=
  PhysFileData.mk "2016001" "2016007" 0 10000 ["CO2"]
    [("CO2", Arr4.mk 24 1 1 1 [])] [1] (Arr2.mk 24 1 [])

/-- Closed instance of `phys_from_file_shared_params` with every class
parameter still undefined. -/
theorem phys_from_file_shared_params_witness :
    ((∃ nv ∈ file_par_list wfile, ∃ old,
        (fun _ : String => (none : Option PVal)) nv.1 = some old ∧ old ≠ nv.2) →
      ∃ msg, phys_from_file "2016001" "2016007"
        (fun _ : String => (none : Option PVal)) wfile = .error msg)
    ∧ ((∀ nv ∈ file_par_list wfile, ∀ old,
        (fun _ : String => (none : Option PVal)) nv.1 = some old → old = nv.2) →
      ∃ r, phys_from_file "2016001" "2016007"
        (fun _ : String => (none : Option PVal)) wfile = .ok r) :=
  phys_from_file_shared_params "2016001" "2016007"
    (fun _ => none) wfile rfl rfl (by decide) (by decide) (by decide)
    (by decide) (by decide) (by decide) (by decide)

/-- Per-species and per-spatial-cell embedding of
`fourdvar/transfunc/map_sense.py::map_sense` (lines 116–173).  The species
loop handles every species independently by the same code path, and for a
spatial cell that survives the layer truncations (`[:mlay]`, `[:play]`) all
time-axis arithmetic is pointwise per cell, so the embedding tracks one
species at one fixed spatial cell: a day's sensitivity data and its unit
conversion factors are lists over the fine (model) time axis.  `add_at`
mirrors `emis_dict[spc][ind,...] += phys_arr` (numpy add-in-place at index
`ind`; a `set` beyond the end is out of range for numpy, unreachable here
because every index written was read from the live `e_count` list). -/
def add_at (l : List ℚ) (i : Nat) (v : ℚ) : List ℚ :=
  l.set i (l.getD i 0 + v)

/-- `model_arr[start:end, ...].sum(axis=0)` for the slice pair
`(start, end)` (numpy slicing silently truncates at the array's end). -/
def seg_sum (model_arr : List ℚ) (se : Nat × Nat) : ℚ :=
  ((model_arr.drop se.1).take (se.2 - se.1)).sum

/-- `sense_arr.reshape((n, k, ...)).sum(axis=1)`: `n` chunk sums of `k`
consecutive fine steps each. -/
def chunk_sums : Nat → Nat → List ℚ → List ℚ
  | 0, _, _ => []
  | n + 1, k, l => (l.take k).sum :: chunk_sums n k (l.drop k)

/-- `(np.diff(p_ind) == 1).all()`: the drained physical indices are
consecutive. -/
def consec : List Nat → Bool
  | [] => true
  | [_] => true
  | a :: b :: rest => (b == a + 1) && consec (b :: rest)

/-- The `while r < m_len` drain loop of `map_sense` (lines 133–140), with a
fuel argument in place of Python's unbounded iteration (the caller passes
ample fuel; a run that returns `.ok` is exactly a terminating Python run):
`p_ind.append(t); s = min(e_count[t], m_len); m_slice.append(r+s); r += s;
e_count[t] -= s; if e_count[t] <= 0: t += 1`, with `IndexError` when `t`
runs past `e_count`. -/
def drain (m_len : Nat) : Nat → List Nat → Nat → Nat → List Nat → List Nat →
    Except String (List Nat × List Nat × List Nat × Nat)
  | 0, _, _, _, _, _ => .error "RecursionError"
  | fuel + 1, ec, t, r, p_ind, ends =>
    if r < m_len then
      match ec[t]? with
      | none => .error "IndexError: list index out of range"
      | some e =>
        let s := min e m_len
        if e - s = 0 then
          drain m_len fuel (ec.set t (e - s)) (t + 1) (r + s)
            (p_ind ++ [t]) (ends ++ [r + s])
        else
          drain m_len fuel (ec.set t (e - s)) t (r + s)
            (p_ind ++ [t]) (ends ++ [r + s])
    else .ok (p_ind, ends, ec, t)

/-- The accumulation loop `for ind,(start,end) in zip(p_ind, m_slice):
emis_dict[spc][ind,...] += model_arr[start:end,...].sum(axis=0)`. -/
def accum (model_arr : List ℚ) : List (Nat × (Nat × Nat)) → List ℚ → List ℚ
  | [], emis => emis
  | (ind, se) :: rest, emis =>
    accum model_arr rest (add_at emis ind (seg_sum model_arr se))

/-- The per-day body of `map_sense`'s date loop, threading the live
`e_count` list, the current physical index `t` and the per-species
accumulator: drain a full day of `m_len` model steps, check the alignment
asserts, unit-convert the day's sensitivity data, drop the trailing
boundary step (`sdata[:-1]`), chunk-sum fine steps into model steps
(`reshape((mstep-1,-1,...)).sum(axis=1)`), and add each slice's sum to its
physical timestep. -/
def day_loop (m_tstep mstep : Nat) :
    List (List ℚ × List ℚ) → List Nat → Nat → List ℚ → Except String (List ℚ)
  | [], _, _, emis => .ok emis
  | (sense, unit) :: rest, ec, t, emis => do
    let m_len := daysec / m_tstep
    let out ← drain m_len (m_len + ec.length + 1) ec t 0 [] [0]
    let p_ind := out.1
    let ends := out.2.1
    let m_slice := ends.zip ends.tail
    if !(consec p_ind) then .error "index out of alignment"
    else
      match m_slice.getLast? with
      | none => .error "IndexError: list index out of range"
      | some last =>
        if last.2 ≠ m_len then
          .error "m_slice does not cover all emis timesteps"
        else
          let sdata := List.zipWith (fun s u => s * u) sense unit
          let sstep := sdata.length
          if !((mstep - 1 ≤ sstep - 1) && ((sstep - 1) % (mstep - 1) == 0)) then
            .error "emis_sense and ModelInputData TSTEP are incompatible."
          else
            let sense_arr := sdata.dropLast
            let model_arr := chunk_sums (mstep - 1)
              ((sstep - 1) / (mstep - 1)) sense_arr
            let emis2 := accum model_arr (p_ind.zip m_slice) emis
            day_loop m_tstep mstep rest out.2.2.1 out.2.2.2 emis2

/-- Embeds the body of `map_sense` for one species at one spatial cell:
assert every physical step length is a multiple of the model step
(`assert all([t % m_tstep == 0 for t in p_tstep])`), form `e_count =
[p//m_tstep for p in p_tstep]`, start the physical index at `0`, zero the
`nstep`-long accumulator, and run the date loop over the per-day
`(sensitivity, unit conversion)` data. -/
def map_sense_core (m_tstep mstep nstep : Nat) (p_tstep : List Nat)
    (days : List (List ℚ × List ℚ)) : Except String (List ℚ) :=
  if !(p_tstep.all (fun p => p % m_tstep == 0)) then
    .error "physical & model input emis TSTEP incompatible."
  else
    day_loop m_tstep mstep days (p_tstep.map (fun p => p / m_tstep)) 0
      (List.replicate nstep 0)

/-- Running sum of the first `i` entries of `cs`: the global fine-step
offset at which physical timestep `i`'s share begins. -/
def pfx_sum (cs : List Nat) (i : Nat) : Nat := ((cs.take i).sum)

/-- Distribute a stream of per-model-step values over physical timesteps,
`cs i` consecutive steps to timestep `i` in order — the specification of
the adjoint of the forward copy/expand.  Truncation at the stream's end
leaves later timesteps with empty (zero) sums. -/
def spec_distribute : List Nat → List ℚ → List ℚ
  | [], _ => []
  | c :: cs, g => (g.take c).sum :: spec_distribute cs (g.drop c)

/-- The day's model-step values as `map_sense` builds them: unit-convert
pointwise, drop the trailing boundary step, sum every `k` fine steps into
one model step, where `k = (sstep-1)/(mstep-1)`. -/
def day_model_arr (mstep : Nat) (day : List ℚ × List ℚ) : List ℚ :=
  let sdata := List.zipWith (fun s u => s * u) day.1 day.2
  chunk_sums (mstep - 1) ((sdata.length - 1) / (mstep - 1)) sdata.dropLast

lemma chunk_sums_length (k : Nat) :
    ∀ (n : Nat) (l : List ℚ), (chunk_sums n k l).length = n
  | 0, _ => rfl
  | n + 1, l => by simp [chunk_sums, chunk_sums_length k n]

lemma spec_distribute_nil :
    ∀ cs : List Nat, spec_distribute cs [] = List.replicate cs.length 0
  | [] => rfl
  | c :: cs => by
    simp [spec_distribute, List.replicate_succ, spec_distribute_nil cs]

lemma add_at_cons_succ (x : ℚ) (l : List ℚ) (i : Nat) (v : ℚ) :
    add_at (x :: l) (i + 1) v = x :: add_at l i v := by
  simp [add_at]

lemma add_at_cons_zero (x : ℚ) (l : List ℚ) (v : ℚ) :
    add_at (x :: l) 0 v = (x + v) :: l := by
  simp [add_at]

lemma pfx_sum_succ (cs : List Nat) (t : Nat) :
    pfx_sum cs (t + 1) = pfx_sum cs t + cs.getD t 0 := by
  rw [pfx_sum, pfx_sum, List.take_succ, List.sum_append]
  cases hx : cs[t]? with
  | none =>
    have : cs.getD t 0 = 0 := by
      rw [List.getD_eq_getElem?_getD, hx]
      rfl
    simp [hx, this]
  | some v =>
    have : cs.getD t 0 = v := by
      rw [List.getD_eq_getElem?_getD, hx]
      rfl
    simp [hx, this]

lemma spec_append_within :
    ∀ (cs : List Nat) (t : Nat) (G A : List ℚ),
      t < cs.length → pfx_sum cs t ≤ G.length →
      G.length + A.length ≤ pfx_sum cs t + cs.getD t 0 →
      spec_distribute cs (G ++ A) = add_at (spec_distribute cs G) t A.sum
  | [], t, _, _, ht, _, _ => by simp at ht
  | c :: cs, 0, G, A, _, _, hhi => by
    have hc : G.length + A.length ≤ c := by
      have h0 : pfx_sum (c :: cs) 0 = 0 := rfl
      have hget : (c :: cs).getD 0 0 = c := rfl
      omega
    have htake : (G ++ A).take c = G ++ A :=
      List.take_of_length_le (by simp; omega)
    have hdrop : (G ++ A).drop c = [] :=
      List.drop_eq_nil_of_le (by simp; omega)
    have htG : G.take c = G := List.take_of_length_le (by omega)
    have hdG : G.drop c = [] := List.drop_eq_nil_of_le (by omega)
    rw [spec_distribute, spec_distribute, htake, hdrop, htG, hdG,
      add_at_cons_zero, List.sum_append]
  | c :: cs, t + 1, G, A, ht, hlo, hhi => by
    have hpfx : pfx_sum (c :: cs) (t + 1) = c + pfx_sum cs t := by
      rw [pfx_sum, pfx_sum, List.take_succ_cons, List.sum_cons]
    have hgetD : (c :: cs).getD (t + 1) 0 = cs.getD t 0 := rfl
    rw [hpfx] at hlo
    rw [hpfx, hgetD] at hhi
    have hcG : c ≤ G.length := by omega
    have htake : (G ++ A).take c = G.take c :=
      List.take_append_of_le_length hcG
    have hdrop : (G ++ A).drop c = G.drop c ++ A :=
      List.drop_append_of_le_length hcG
    have hlen : (G.drop c).length = G.length - c := by simp
    have ht2 : t < cs.length := by
      have : t + 1 < cs.length + 1 := by simpa using ht
      omega
    have ih := spec_append_within cs t (G.drop c) A ht2 (by omega) (by omega)
    rw [spec_distribute, spec_distribute, htake, hdrop, ih, add_at_cons_succ]

lemma getD_set_self {l : List Nat} {i : Nat} (h : i < l.length) (v : Nat) :
    (l.set i v).getD i 0 = v := by
  rw [List.getD_eq_getElem?_getD, List.getElem?_set_self]
  · rfl
  · exact h

lemma getD_set_ne {l : List Nat} {i j : Nat} (h : i ≠ j) (v : Nat) :
    (l.set i v).getD j 0 = l.getD j 0 := by
  rw [List.getD_eq_getElem?_getD, List.getD_eq_getElem?_getD,
    List.getElem?_set_ne h]

/-- The loop invariant tying the live `e_count` list of `map_sense`'s drain
loop to the original counts `cs`: `consumed` global model steps have been
assigned so far, entries before the current physical index `t` are fully
drained, entry `t` holds exactly what remains of its share, and later
entries are untouched. -/
structure DrainInv (cs ec : List Nat) (t consumed : Nat) : Prop where
  hlen : ec.length = cs.length
  ht : t ≤ cs.length
  hlow : pfx_sum cs t ≤ consumed
  hhigh : consumed ≤ pfx_sum cs t + cs.getD t 0
  hec : ∀ i, ec.getD i 0 = if i < t then 0
    else if i = t then pfx_sum cs t + cs.getD t 0 - consumed else cs.getD i 0

lemma drain_append (m_len : Nat) :
    ∀ (fuel : Nat) (ec : List Nat) (t r : Nat) (p0 e0 : List Nat),
      drain m_len fuel ec t r p0 e0
        = match drain m_len fuel ec t r [] [] with
          | .ok out => .ok (p0 ++ out.1, e0 ++ out.2.1, out.2.2)
          | .error m => .error m
  | 0, _, _, _, _, _ => rfl
  | fuel + 1, ec, t, r, p0, e0 => by
    by_cases hr : r < m_len
    · cases hg : ec[t]? with
      | none => simp [drain, hr, hg]
      | some e =>
        by_cases hz : e - min e m_len = 0
        · rw [show drain m_len (fuel + 1) ec t r p0 e0
              = drain m_len fuel (ec.set t (e - min e m_len)) (t + 1)
                (r + min e m_len) (p0 ++ [t]) (e0 ++ [r + min e m_len]) by
            simp [drain, hr, hg, hz]]
          rw [show drain m_len (fuel + 1) ec t r [] []
              = drain m_len fuel (ec.set t (e - min e m_len)) (t + 1)
                (r + min e m_len) [t] [r + min e m_len] by
            simp [drain, hr, hg, hz]]
          rw [drain_append m_len fuel _ (t + 1) (r + min e m_len) (p0 ++ [t])
            (e0 ++ [r + min e m_len])]
          rw [drain_append m_len fuel _ (t + 1) (r + min e m_len) [t]
            [r + min e m_len]]
          cases drain m_len fuel (ec.set t (e - min e m_len)) (t + 1)
              (r + min e m_len) [] [] with
          | ok out => simp
          | error m => simp
        · rw [show drain m_len (fuel + 1) ec t r p0 e0
              = drain m_len fuel (ec.set t (e - min e m_len)) t
                (r + min e m_len) (p0 ++ [t]) (e0 ++ [r + min e m_len]) by
            simp [drain, hr, hg, hz]]
          rw [show drain m_len (fuel + 1) ec t r [] []
              = drain m_len fuel (ec.set t (e - min e m_len)) t
                (r + min e m_len) [t] [r + min e m_len] by
            simp [drain, hr, hg, hz]]
          rw [drain_append m_len fuel _ t (r + min e m_len) (p0 ++ [t])
            (e0 ++ [r + min e m_len])]
          rw [drain_append m_len fuel _ t (r + min e m_len) [t]
            [r + min e m_len]]
          cases drain m_len fuel (ec.set t (e - min e m_len)) t
              (r + min e m_len) [] [] with
          | ok out => simp
          | error m => simp
    · simp [drain, hr]

lemma zip_tail_getLast :
    ∀ (l : List Nat) (x : Nat) (p : Nat × Nat),
      ((x :: l).zip l).getLast? = some p → (x :: l).getLast? = some p.2
  | [], _, _, h => by simp at h
  | [a], x, p, h => by
    simp [List.zip] at h
    simp [← h]
  | a :: b :: l2, x, p, h => by
    rw [List.zip_cons_cons, List.zip_cons_cons, List.getLast?_cons_cons,
      ← List.zip_cons_cons] at h
    have ih := zip_tail_getLast (b :: l2) a p h
    rwa [List.getLast?_cons_cons]

lemma drain_sem (cs : List Nat) (m_len : Nat) (GB M : List ℚ)
    (hM : M.length = m_len) :
    ∀ (fuel : Nat) (ec : List Nat) (t r : Nat) (P E ec2 : List Nat) (t2 : Nat),
      DrainInv cs ec t (GB.length + r) → r ≤ m_len →
      drain m_len fuel ec t r [] [] = .ok (P, E, ec2, t2) →
      (r :: E).getLast? = some m_len →
      DrainInv cs ec2 t2 (GB.length + m_len) ∧
      accum M (P.zip ((r :: E).zip E)) (spec_distribute cs (GB ++ M.take r))
        = spec_distribute cs (GB ++ M)
  | 0, ec, t, r, P, E, ec2, t2, hinv, hr, hok, hlast => by
    simp [drain] at hok
  | fuel + 1, ec, t, r, P, E, ec2, t2, hinv, hr, hok, hlast => by
    by_cases hrm : r < m_len
    · cases hg : ec[t]? with
      | none => simp [drain, hrm, hg] at hok
      | some e =>
        have htlen : t < ec.length := by
          by_contra hc
          rw [List.getElem?_eq_none_iff.2 (by omega)] at hg
          cases hg
        have htcs : t < cs.length := by
          rw [← hinv.hlen]
          exact htlen
        have hegd : ec.getD t 0 = e := by
          rw [List.getD_eq_getElem?_getD, hg]
          rfl
        have he : e = pfx_sum cs t + cs.getD t 0 - (GB.length + r) := by
          have h2 := hinv.hec t
          rw [hegd, if_neg (show ¬(t < t) by omega), if_pos rfl] at h2
          omega
        have hse : min e m_len ≤ e := Nat.min_le_left _ _
        have hsm : min e m_len ≤ m_len := Nat.min_le_right _ _
        by_cases hz : e - min e m_len = 0
        · -- s = e: the current index is fully drained, t advances
          have hstep : drain m_len (fuel + 1) ec t r [] []
              = drain m_len fuel (ec.set t (e - min e m_len)) (t + 1)
                (r + min e m_len) [t] [r + min e m_len] := by
            simp [drain, hrm, hg, hz]
          rw [hstep, drain_append] at hok
          cases hcore : drain m_len fuel (ec.set t (e - min e m_len)) (t + 1)
              (r + min e m_len) [] [] with
          | error m =>
            rw [hcore] at hok
            simp at hok
          | ok out =>
            rw [hcore] at hok
            obtain ⟨P1, E1, ec3, t3⟩ := out
            simp only [Except.ok.injEq, Prod.mk.injEq] at hok
            obtain ⟨hP, hE, hec2, ht2⟩ := hok
            subst hP
            subst hE
            subst hec2
            subst ht2
            have hlast2 : ((r + min e m_len) :: E1).getLast? = some m_len := by
              simpa [List.getLast?_cons_cons] using hlast
            have hseq : min e m_len = e := by omega
            have hrs : r + min e m_len ≤ m_len := by
              by_contra hgt
              cases fuel with
              | zero => simp [drain] at hcore
              | succ f =>
                have : ¬(r + min e m_len < m_len) := by omega
                simp [drain, this] at hcore
                obtain ⟨_, hE1, _, _⟩ := hcore
                rw [hE1] at hlast2
                simp at hlast2
                omega
            have hinv2 : DrainInv cs (ec.set t (e - min e m_len)) (t + 1)
                (GB.length + (r + min e m_len)) := by
              refine ⟨by simp [hinv.hlen], by omega, ?_, ?_, ?_⟩
              · rw [pfx_sum_succ]
                have := hinv.hhigh
                omega
              · rw [pfx_sum_succ]
                have := hinv.hhigh
                omega
              · intro i
                by_cases hit : i = t
                · subst hit
                  rw [getD_set_self htlen]
                  have := hinv.hhigh
                  split_ifs <;> omega
                · rw [getD_set_ne (fun h => hit h.symm)]
                  have hold := hinv.hec i
                  have := hinv.hhigh
                  by_cases hit1 : i = t + 1
                  · subst hit1
                    rw [if_neg (by omega), if_pos rfl, pfx_sum_succ]
                    rw [if_neg (by omega), if_neg (by omega)] at hold
                    omega
                  · rw [pfx_sum_succ]
                    split_ifs at hold ⊢ <;> omega
            have ih := drain_sem cs m_len GB M hM fuel _ _ _ _ _ _ _ hinv2
              (by omega) hcore hlast2
            refine ⟨ih.1, ?_⟩
            simp only [List.singleton_append]
            rw [List.zip_cons_cons, List.zip_cons_cons]
            show accum M ((t, (r, r + min e m_len)) ::
              P1.zip (((r + min e m_len) :: E1).zip E1)) _ = _
            rw [accum]
            have hA : seg_sum M (r, r + min e m_len)
                = ((M.drop r).take (min e m_len)).sum := by
              rw [seg_sum]
              congr 2
              omega
            have hlenG : (GB ++ M.take r).length = GB.length + r := by
              simp
              omega
            have hlenA : ((M.drop r).take (min e m_len)).length
                = min e m_len := by
              simp
              omega
            have hwithin := spec_append_within cs t (GB ++ M.take r)
              ((M.drop r).take (min e m_len)) htcs
              (by rw [hlenG]; exact hinv.hlow)
              (by
                rw [hlenG, hlenA]
                have := hinv.hhigh
                omega)
            have happ : (GB ++ M.take r) ++ (M.drop r).take (min e m_len)
                = GB ++ M.take (r + min e m_len) := by
              rw [List.append_assoc, List.take_add]
            rw [happ] at hwithin
            rw [hA, ← hwithin]
            exact ih.2
        · -- s = m_len < e: a full day goes to the current index, t stays
          have hstep : drain m_len (fuel + 1) ec t r [] []
              = drain m_len fuel (ec.set t (e - min e m_len)) t
                (r + min e m_len) [t] [r + min e m_len] := by
            simp [drain, hrm, hg, hz]
          rw [hstep, drain_append] at hok
          cases hcore : drain m_len fuel (ec.set t (e - min e m_len)) t
              (r + min e m_len) [] [] with
          | error m =>
            rw [hcore] at hok
            simp at hok
          | ok out =>
            rw [hcore] at hok
            obtain ⟨P1, E1, ec3, t3⟩ := out
            simp only [Except.ok.injEq, Prod.mk.injEq] at hok
            obtain ⟨hP, hE, hec2, ht2⟩ := hok
            subst hP
            subst hE
            subst hec2
            subst ht2
            have hlast2 : ((r + min e m_len) :: E1).getLast? = some m_len := by
              simpa [List.getLast?_cons_cons] using hlast
            have hseq : min e m_len = m_len := by omega
            have hrs : r + min e m_len ≤ m_len := by
              by_contra hgt
              cases fuel with
              | zero => simp [drain] at hcore
              | succ f =>
                have : ¬(r + min e m_len < m_len) := by omega
                simp [drain, this] at hcore
                obtain ⟨_, hE1, _, _⟩ := hcore
                rw [hE1] at hlast2
                simp at hlast2
                omega
            have hinv2 : DrainInv cs (ec.set t (e - min e m_len)) t
                (GB.length + (r + min e m_len)) := by
              refine ⟨by simp [hinv.hlen], hinv.ht, ?_, ?_, ?_⟩
              · have := hinv.hlow
                omega
              · have := hinv.hhigh
                omega
              · intro i
                by_cases hit : i = t
                · subst hit
                  rw [getD_set_self htlen]
                  have := hinv.hhigh
                  split_ifs <;> omega
                · rw [getD_set_ne (fun h => hit h.symm)]
                  have hold := hinv.hec i
                  split_ifs at hold ⊢ <;> omega
            have ih := drain_sem cs m_len GB M hM fuel _ _ _ _ _ _ _ hinv2
              (by omega) hcore hlast2
            refine ⟨ih.1, ?_⟩
            simp only [List.singleton_append]
            rw [List.zip_cons_cons, List.zip_cons_cons]
            show accum M ((t, (r, r + min e m_len)) ::
              P1.zip (((r + min e m_len) :: E1).zip E1)) _ = _
            rw [accum]
            have hA : seg_sum M (r, r + min e m_len)
                = ((M.drop r).take (min e m_len)).sum := by
              rw [seg_sum]
              congr 2
              omega
            have hlenG : (GB ++ M.take r).length = GB.length + r := by
              simp
              omega
            have hlenA : ((M.drop r).take (min e m_len)).length
                = min e m_len := by
              simp
              omega
            have hwithin := spec_append_within cs t (GB ++ M.take r)
              ((M.drop r).take (min e m_len)) htcs
              (by rw [hlenG]; exact hinv.hlow)
              (by
                rw [hlenG, hlenA]
                have := hinv.hhigh
                omega)
            have happ : (GB ++ M.take r) ++ (M.drop r).take (min e m_len)
                = GB ++ M.take (r + min e m_len) := by
              rw [List.append_assoc, List.take_add]
            rw [happ] at hwithin
            rw [hA, ← hwithin]
            exact ih.2
    · have hok2 : drain m_len (fuel + 1) ec t r [] [] = .ok ([], [], ec, t) := by
        simp [drain, hrm]
      rw [hok2] at hok
      simp only [Except.ok.injEq, Prod.mk.injEq] at hok
      obtain ⟨hP, hE, hec2, ht2⟩ := hok
      subst hP
      subst hE
      subst hec2
      subst ht2
      have hre : r = m_len := by simpa using hlast
      refine ⟨?_, ?_⟩
      · rw [← hre]
        exact hinv
      · show spec_distribute cs (GB ++ M.take r) = spec_distribute cs (GB ++ M)
        rw [hre, ← hM, List.take_length]

lemma day_loop_sem (cs : List Nat) (m_tstep mstep : Nat)
    (hms : mstep - 1 = daysec / m_tstep) :
    ∀ (days : List (List ℚ × List ℚ)) (ec : List Nat) (t : Nat)
      (GB : List ℚ) (emisF : List ℚ),
      DrainInv cs ec t GB.length →
      day_loop m_tstep mstep days ec t (spec_distribute cs GB) = .ok emisF →
      emisF = spec_distribute cs
        (GB ++ (days.map (day_model_arr mstep)).flatten)
  | [], ec, t, GB, emisF, hinv, hok => by
    simp only [day_loop, Except.ok.injEq] at hok
    simp [← hok]
  | (sense, uconv) :: rest, ec, t, GB, emisF, hinv, hok => by
    simp only [day_loop] at hok
    rw [drain_append] at hok
    cases hcore : drain (daysec / m_tstep) (daysec / m_tstep + ec.length + 1)
        ec t 0 [] [] with
    | error m =>
      rw [hcore] at hok
      simp [Bind.bind, Except.bind] at hok
    | ok out =>
      obtain ⟨P0, E0, ec2, t2⟩ := out
      rw [hcore] at hok
      simp only [Bind.bind, Except.bind, List.nil_append,
        List.singleton_append, List.tail_cons] at hok
      cases hcons : consec P0 with
      | false =>
        rw [hcons] at hok
        simp at hok
      | true =>
        rw [hcons] at hok
        simp only [Bool.not_true, Bool.false_eq_true, if_false,
          Bool.not_eq_true] at hok
        split at hok
        · simp at hok
        · rename_i last hml
          split at hok
          · simp at hok
          · rename_i hl2ne
            have hl2 : last.2 = daysec / m_tstep := by
              by_contra hc
              exact hl2ne hc
            split at hok
            · simp at hok
            · have hdma : chunk_sums (mstep - 1)
                  (((List.zipWith (fun s u => s * u) sense uconv).length - 1)
                    / (mstep - 1))
                  (List.zipWith (fun s u => s * u) sense uconv).dropLast
                  = day_model_arr mstep (sense, uconv) := rfl
              rw [hdma] at hok
              have hM : (day_model_arr mstep (sense, uconv)).length
                  = daysec / m_tstep := by
                rw [day_model_arr, chunk_sums_length, hms]
              have hlast0 : (0 :: E0).getLast? = some (daysec / m_tstep) := by
                have := zip_tail_getLast E0 0 last hml
                rw [this, hl2]
              have hsem := drain_sem cs (daysec / m_tstep) GB
                (day_model_arr mstep (sense, uconv)) hM
                (daysec / m_tstep + ec.length + 1) ec t 0 P0 E0 ec2 t2
                (by simpa using hinv) (Nat.zero_le _) hcore hlast0
              have haccum := hsem.2
              rw [List.take_zero, List.append_nil] at haccum
              have hinv2 : DrainInv cs ec2 t2
                  (GB ++ day_model_arr mstep (sense, uconv)).length := by
                rw [List.length_append, hM]
                exact hsem.1
              have hok2 : day_loop m_tstep mstep rest ec2 t2
                  (spec_distribute cs
                    (GB ++ day_model_arr mstep (sense, uconv)))
                  = .ok emisF := by
                rw [← haccum]
                exact hok
              have ih := day_loop_sem cs m_tstep mstep hms rest ec2 t2
                (GB ++ day_model_arr mstep (sense, uconv)) emisF hinv2 hok2
              rw [ih, List.map_cons, List.flatten_cons, List.append_assoc]

/-- C6: for sensitivity data satisfying the asserted preconditions (every
physical step length a positive-integer multiple of the model step — the
`assert` at map_sense line 122 — and the per-day alignment and coverage
asserts, all folded into the success of the run), `map_sense` produces, for
each species and each physical timestep, the sum of the unit-converted
fine-model-step sensitivity values assigned to that physical timestep, with
the trailing boundary step of each day's sensitivity array excluded from the
summation: the result equals distributing the concatenated per-day streams
of unit-converted, boundary-dropped, chunk-summed model-step values over the
physical timesteps, `e_count[i] = p_tstep[i] / m_tstep` consecutive model
steps to timestep `i` in order — the adjoint of the forward copy/expand with
the boundary step held out of the repeating pattern.  `mstep - 1 = daysec /
m_tstep` states that the model-input template holds one day of emission
steps plus the trailing boundary step. -/
theorem map_sense_adjoint_sum (m_tstep mstep nstep : Nat) (p_tstep : List Nat)
    (days : List (List ℚ × List ℚ)) (emis : List ℚ)
    (hms : mstep - 1 = daysec / m_tstep)
    (hnstep : nstep = p_tstep.length)
    (hok : map_sense_core m_tstep mstep nstep p_tstep days = .ok emis) :
    emis = spec_distribute (p_tstep.map (fun p => p / m_tstep))
      ((days.map (day_model_arr mstep)).flatten) := by
  rw [map_sense_core] at hok
  cases hall : p_tstep.all (fun p => p % m_tstep == 0) with
  | false =>
    rw [hall] at hok
    simp at hok
  | true =>
    rw [hall] at hok
    simp only [Bool.not_true, Bool.false_eq_true, if_false] at hok
    have hzero : List.replicate nstep (0 : ℚ)
        = spec_distribute (p_tstep.map (fun p => p / m_tstep)) [] := by
      rw [spec_distribute_nil, List.length_map, hnstep]
    rw [hzero] at hok
    have hinv : DrainInv (p_tstep.map (fun p => p / m_tstep))
        (p_tstep.map (fun p => p / m_tstep)) 0 (List.length ([] : List ℚ)) := by
      refine ⟨rfl, Nat.zero_le _, ?_, ?_, ?_⟩
      · simp [pfx_sum]
      · simp [pfx_sum]
      · intro i
        simp [pfx_sum]
        split_ifs with h0
        · rw [h0]
        · rfl
    have := day_loop_sem (p_tstep.map (fun p => p / m_tstep)) m_tstep mstep hms
      days (p_tstep.map (fun p => p / m_tstep)) 0 [] emis hinv hok
    simpa using this

/-- Closed instance of `map_sense_adjoint_sum`: half-day model steps
(`m_tstep = 43200`, `mstep = 3`: two model steps per day plus the boundary
step), two half-day physical timesteps, one day of fine data `[1, 2, 5]`
with unit conversion `[1, 1, 1]`: the boundary value `5` is excluded and
the two physical steps receive `1` and `2`. -/
theorem map_sense_adjoint_sum_witness :
    map_sense_core 43200 3 2 [43200, 43200] [([1, 2, 5], [1, 1, 1])]
      = .ok [1, 2]
    ∧ ([1, 2] : List ℚ) = spec_distribute
      ([43200, 43200].map (fun p => p / 43200))
      (([(([1, 2, 5] : List ℚ), ([1, 1, 1] : List ℚ))].map
        (day_model_arr 3)).flatten) :=
  ⟨by
    norm_num [map_sense_core, day_loop, drain, accum, chunk_sums, consec,
      seg_sum, add_at, daysec, spec_distribute, pfx_sum, day_model_arr,
      Bind.bind, Except.bind, List.getLast?, List.zip, List.zipWith,
      List.tail_cons, List.replicate],
   map_sense_adjoint_sum 43200 3 2 [43200, 43200] [([1, 2, 5], [1, 1, 1])]
    [1, 2] (by decide) (by decide)
    (by
      norm_num [map_sense_core, day_loop, drain, accum, chunk_sums, consec,
        seg_sum, add_at, daysec, spec_distribute, pfx_sum, day_model_arr,
        Bind.bind, Except.bind, List.getLast?, List.zip, List.zipWith,
        List.tail_cons, List.replicate])⟩
